import Mathlib

/-!
Verification development for the go-jupyter kernel client.

This file gives a shallow embedding of the repository's wire codec
(`Message.Encode`, `Message.Decode`, `RawMessage.Decode`, `signMessage`,
`validateSignature`, `findIndex`, `unmarshalParts`) and of the client
runtime (`Client.Execute`, `Client.addIOChannel`, `Client.deleteIOChannel`,
`Client.pollIO`, `parseContent`, `createTarget`, `maybeShouldListen`),
together with theorems settling the specification claims about them.

Modelling conventions:
* a Go byte slice `[]byte` is `Option Bytes`, with `none` for the nil slice
  (the codec distinguishes nil from empty via `signKey != nil` and
  `parts[i] != nil` checks);
* the external `encoding/json` marshal/unmarshal functions are abstracted
  as fields of a `Codec` structure (the repository treats them as a black
  box); marshalling is total (Go marshal errors arise only for unsupported
  dynamic values, which no claim is about), unmarshalling is partial;
  `jsonValid` models the syntax check `json.Unmarshal` performs when the
  target is a `json.RawMessage`;
* `macF key data` abstracts the raw HMAC-SHA256 digest
  (`hmac.New(sha256.New, key)` fed with `data`); the hex encoding and the
  Go `hex.Decode` error-tolerant behaviour are modelled concretely;
* Go slice expressions and index accesses out of range are modelled by the
  `GoResult.panics` outcome (slice capacity is taken to equal its length);
* the `map[string]interface{}` JSON-object type is an abstract type `M`.
-/

namespace Jup

/-- A byte string; entries are byte values (kept below 256 by hypotheses
where it matters). -/
abbrev Bytes := List Nat

/-- The bytes a Go `[]byte` contributes when read: a nil slice reads as
empty (`mac.Write(nil)`, `string(nil)` both see no bytes). -/
def goBytes : Option Bytes → Bytes
  | none => []
  | some bs => bs

/-- ASCII bytes of the Go delimiter constant from
`findIndex(parts, "<IDS|MSG>")` and `sendRequest`. -/
def delimiterToken : Bytes := [60, 73, 68, 83, 124, 77, 83, 71, 62]

/-- Concatenation of a list of byte strings (what successive `mac.Write`
calls over a `[][]byte` observe). -/
def bytesJoin : List Bytes → Bytes
  | [] => []
  | b :: rest => b ++ bytesJoin rest

/-- List lookup returning `none` past the end; used to model Go index
expressions, whose out-of-range case is a panic. -/
def listGet {α : Type _} : List α → Nat → Option α
  | [], _ => none
  | x :: _, 0 => some x
  | _ :: xs, n + 1 => listGet xs n

/-- Go `header` struct from the codec source (all fields JSON strings). -/
structure Header where
  MsgID : String
  Username : String
  Session : String
  Date : String
  MsgType : String
  Version : String
deriving DecidableEq, Repr

/-- The Go zero value of `Header`. -/
def zeroHeader : Header := ⟨"", "", "", "", "", ""⟩

/-- Go `Message` (fields lowercased: Lean forbids a field named after its
own type): `Content interface{}` is `Option C` (`none` = nil interface);
`Metadata map[string]interface{}` is the abstract type `M`. -/
structure Message (M C : Type) where
  header : Header
  parentHeader : Header
  metadata : M
  content : Option C
deriving DecidableEq, Repr

/-- Go `RawMessage` (fields lowercased as in `Message`):
`Content json.RawMessage` is `Option Bytes` (`none` = the nil zero
value). -/
structure RawMessage (M : Type) where
  header : Header
  parentHeader : Header
  metadata : M
  content : Option Bytes
deriving DecidableEq, Repr

/-- Decode-side error values of the codec (`errors.New` values in the
source): the `findIndex` not-found error, `ErrInvalidSignature`, and any
`encoding/json` unmarshal error. -/
inductive DecErr where
  | notFound
  | invalidSignature
  | unmarshalErr
deriving DecidableEq, Repr

/-- Result of running a Go function that may return an error or panic. -/
inductive GoResult (α : Type _) where
  | ok : α → GoResult α
  | error : DecErr → GoResult α
  | panics : GoResult α
deriving DecidableEq, Repr

/-- Sequencing of Go statements that short-circuit on error (and where a
panic aborts everything downstream). -/
def GoResult.bind {α β : Type _} : GoResult α → (α → GoResult β) → GoResult β
  | .ok a, f => f a
  | .error e, _ => .error e
  | .panics, _ => .panics

/-- The external serialization and MAC collaborators of the codec:
`marH`/`unmarH` are `json.Marshal`/`Unmarshal` at type `Header`,
`marM`/`unmarM` at `map[string]interface{}` (abstracted as `M`),
`marC`/`unmarC` at the content payload type `C`, `jsonValid` is the JSON
syntax check applied when unmarshalling into a `json.RawMessage`,
`macF key data` is the raw HMAC-SHA256 digest, and `zeroM` is the Go zero
value of `M` (the nil map). -/
structure Codec (M C : Type) where
  marH : Header → Bytes
  unmarH : Bytes → Option Header
  marM : M → Bytes
  unmarM : Bytes → Option M
  marC : C → Bytes
  unmarC : Bytes → Option C
  jsonValid : Bytes → Bool
  macF : Bytes → Bytes → Bytes
  zeroM : M

/-- Lowercase hex digit of a nibble, as in `encoding/hex`. -/
def hexDigit (n : Nat) : Nat := if n < 10 then 48 + n else 87 + n

/-- `hex.Encode`: two lowercase hex digits per byte. -/
def hexEncode (bs : Bytes) : Bytes :=
  match bs with
  | [] => []
  | b :: rest => hexDigit (b / 16) :: hexDigit (b % 16) :: hexEncode rest

/-- `hex` digit decoding (`fromHexChar`): accepts 0-9, a-f, A-F. -/
def fromHexChar (c : Nat) : Option Nat :=
  if 48 ≤ c ∧ c ≤ 57 then some (c - 48)
  else if 97 ≤ c ∧ c ≤ 102 then some (c - 97 + 10)
  else if 65 ≤ c ∧ c ≤ 70 then some (c - 65 + 10)
  else none

/-- The bytes `hex.Decode` writes before stopping: full pairs of valid
digits; it stops at the first invalid digit or at a trailing lone digit. -/
def hexDecodePairs : Bytes → Bytes
  | a :: b :: rest =>
    match fromHexChar a, fromHexChar b with
    | some x, some y => (16 * x + y) :: hexDecodePairs rest
    | _, _ => []
  | _ => []

/-- The buffer `validateSignature` compares against: a zeroed buffer of
`hex.DecodedLen(len src) = len src / 2` bytes into which `hex.Decode`
wrote as far as it got (its error is discarded in the source). -/
def goHexDecodeBuf (src : Bytes) : Bytes :=
  let d := hexDecodePairs src
  d ++ List.replicate (src.length / 2 - d.length) 0

/-- `signMessage`: HMAC over the concatenated parts, hex-encoded. -/
def signMessage (parts : List (Option Bytes)) (signKey : Bytes)
    (macF : Bytes → Bytes → Bytes) : Bytes :=
  hexEncode (macF signKey (bytesJoin (parts.map goBytes)))

/-- `Message.Encode`: allocates six frames, fills the signature frame and
the four marshalled frames; frame 5 is never assigned and stays nil.
`Header`, `ParentHeader` and `Metadata` pass the `v != nil` check always
(struct values and a map inside an `interface{}` are non-nil interfaces);
only a nil `Content` interface skips its frame. -/
def Message.encode {M C : Type} (cdc : Codec M C) (msg : Message M C)
    (signKey : Option Bytes) : List (Option Bytes) :=
  let p1 : Option Bytes := some (cdc.marH msg.header)
  let p2 : Option Bytes := some (cdc.marH msg.parentHeader)
  let p3 : Option Bytes := some (cdc.marM msg.metadata)
  let p4 : Option Bytes := msg.content.map cdc.marC
  let body : List (Option Bytes) := [p1, p2, p3, p4, none]
  let sig : Option Bytes :=
    match signKey with
    | none => none
    | some k => some (signMessage body k cdc.macF)
  sig :: body

/-- The frame sequence `Client.sendRequest` puts on the wire: the
delimiter-token frame followed by everything `Message.Encode` returned. -/
def sendWireFrames {M C : Type} (cdc : Codec M C) (msg : Message M C)
    (signKey : Option Bytes) : List (Option Bytes) :=
  some delimiterToken :: Message.encode cdc msg signKey

/-- `findIndex`: index of the first part whose bytes read as the target
string (`string(nil part)` is empty); `none` models the error return. -/
def findIndexAux (target : Bytes) : List (Option Bytes) → Nat → Option Nat
  | [], _ => none
  | p :: rest, i =>
    if goBytes p = target then some i else findIndexAux target rest (i + 1)

/-- Entry point of `findIndex` starting at index zero. -/
def findIndex (parts : List (Option Bytes)) (target : Bytes) : Option Nat :=
  findIndexAux target parts 0

/-- The bytes `validateSignature` feeds to the MAC: concatenation of the
four parts `parts[index+2 : index+6]`. -/
def contentConcat (parts : List (Option Bytes)) (index : Nat) : Bytes :=
  bytesJoin (((parts.drop (index + 2)).take 4).map goBytes)

/-- `validateSignature`: nil key returns immediately; otherwise the slice
`parts[index+2 : index+6]` panics when it reaches past the end (capacity
taken as length), else the recomputed MAC is compared against the
hex-decoded signature frame. -/
def validateSignature (macF : Bytes → Bytes → Bytes)
    (parts : List (Option Bytes)) (index : Nat) (signKey : Option Bytes) :
    GoResult Unit :=
  match signKey with
  | none => .ok ()
  | some k =>
    if index + 6 ≤ parts.length then
      if macF k (contentConcat parts index) =
          goHexDecodeBuf (goBytes ((listGet parts (index + 1)).getD none))
      then .ok () else .error .invalidSignature
    else .panics

/-- Outcome of one `json.Unmarshal` call, as the abstract unmarshaller
reports it. -/
def unmarshalRes {α : Type _} : Option α → GoResult α
  | some v => .ok v
  | none => .error .unmarshalErr

/-- The `if parts[startIndex+j] != nil { json.Unmarshal(...) }` body of
`unmarshalParts` for one in-range part: a nil part leaves the target at
its zero value, otherwise the part must unmarshal. -/
def unmarshalOne {α : Type _} (unmar : Bytes → Option α) (zero : α) :
    Option Bytes → GoResult α
  | none => .ok zero
  | some bs => unmarshalRes (unmar bs)

/-- One step of `unmarshalParts`: indexing past the end panics, otherwise
the part at the index is unmarshalled into the target. -/
def decodeField {α : Type _} (unmar : Bytes → Option α) (zero : α)
    (parts : List (Option Bytes)) (idx : Nat) : GoResult α :=
  match listGet parts idx with
  | none => .panics
  | some f => unmarshalOne unmar zero f

/-- `unmarshalParts(parts, startIndex, &Header, &ParentHeader, &Metadata,
&Content)` as called from `RawMessage.Decode`: the four targets in order,
the last one a `json.RawMessage` (bytes are kept, subject to the JSON
syntax check). -/
def unmarshalParts4 {M C : Type} (cdc : Codec M C)
    (parts : List (Option Bytes)) (startIndex : Nat) :
    GoResult (RawMessage M) :=
  (decodeField cdc.unmarH zeroHeader parts startIndex).bind fun h =>
  (decodeField cdc.unmarH zeroHeader parts (startIndex + 1)).bind fun p =>
  (decodeField cdc.unmarM cdc.zeroM parts (startIndex + 2)).bind fun m =>
  (decodeField (fun bs => if cdc.jsonValid bs then some (some bs) else none)
      none parts (startIndex + 3)).bind fun c =>
  .ok ⟨h, p, m, c⟩

/-- `RawMessage.Decode`: locate the delimiter, validate the signature,
unmarshal the four following content frames. -/
def rawDecode {M C : Type} (cdc : Codec M C) (parts : List (Option Bytes))
    (signKey : Option Bytes) : GoResult (RawMessage M) :=
  match findIndex parts delimiterToken with
  | none => .error .notFound
  | some index =>
    (validateSignature cdc.macF parts index signKey).bind fun _ =>
      unmarshalParts4 cdc parts (index + 2)

/-- `Message.Decode`: `RawMessage.Decode` followed by
`json.Unmarshal(raw.Content, &msg.Content)`; unmarshalling a nil
`json.RawMessage` is an error ("unexpected end of JSON input"). -/
def Message.decode {M C : Type} (cdc : Codec M C)
    (parts : List (Option Bytes)) (signKey : Option Bytes) :
    GoResult (Message M C) :=
  (rawDecode cdc parts signKey).bind fun raw =>
    match raw.content with
    | none => .error .unmarshalErr
    | some bs =>
      match cdc.unmarC bs with
      | some c => .ok ⟨raw.header, raw.parentHeader, raw.metadata, some c⟩
      | none => .error .unmarshalErr

/-! ## Content dispatch (`createTarget` / `parseContent`) -/

/-- `StreamMessage` content struct. -/
structure StreamMessage where
  Name : String
  Text : String
deriving DecidableEq, Repr

/-- `DisplayDataMessage` content struct (JSON-object fields abstracted). -/
structure DisplayDataMessage (M : Type) where
  Data : M
  Metadata : M
  Transient : M
deriving DecidableEq, Repr

/-- `UpdateDisplayDataMessage` content struct. -/
structure UpdateDisplayDataMessage (M : Type) where
  Data : M
  Metadata : M
  Transient : M
deriving DecidableEq, Repr

/-- `ClearOutputMessage` content struct. -/
structure ClearOutputMessage where
  Wait : Bool
deriving DecidableEq, Repr

/-- `ExecuteInputMessage` content struct. -/
structure ExecuteInputMessage where
  Code : String
  ExecutionCount : Int
deriving DecidableEq, Repr

/-- `ExecuteResultMessage` content struct. -/
structure ExecuteResultMessage (M : Type) where
  ExecutionCount : Int
  Data : M
  Metadata : M
deriving DecidableEq, Repr

/-- `ErrorMessage` content struct. -/
structure ErrorMessage where
  EName : String
  EValue : String
  Traceback : List String
deriving DecidableEq, Repr

/-- `StatusMessage` content struct; `ExecutionState` is the `KernelState`
string. -/
structure StatusMessage where
  ExecutionState : String
deriving DecidableEq, Repr

/-- `StateIdle` constant. -/
def StateIdle : String := "idle"

/-- `StateBusy` constant. -/
def StateBusy : String := "busy"

/-- `RequestExecute` constant. -/
def RequestExecute : String := "execute_request"

/-- The dynamic type of the `interface{}` returned by `parseContent`: one
known content struct per message-type tag. -/
inductive ParsedContent (M : Type) where
  | stream : StreamMessage → ParsedContent M
  | displayData : DisplayDataMessage M → ParsedContent M
  | updateDisplayData : UpdateDisplayDataMessage M → ParsedContent M
  | clearOutput : ClearOutputMessage → ParsedContent M
  | executeInput : ExecuteInputMessage → ParsedContent M
  | executeResult : ExecuteResultMessage M → ParsedContent M
  | errorMsg : ErrorMessage → ParsedContent M
  | status : StatusMessage → ParsedContent M
deriving DecidableEq, Repr

/-- `json.Unmarshal` at each content struct type, abstracted like the
`Codec` serializers. -/
structure ContentDecoders (M : Type) where
  decStream : Bytes → Option StreamMessage
  decDisplayData : Bytes → Option (DisplayDataMessage M)
  decUpdateDisplayData : Bytes → Option (UpdateDisplayDataMessage M)
  decClearOutput : Bytes → Option ClearOutputMessage
  decExecuteInput : Bytes → Option ExecuteInputMessage
  decExecuteResult : Bytes → Option (ExecuteResultMessage M)
  decErrorMsg : Bytes → Option ErrorMessage
  decStatus : Bytes → Option StatusMessage

/-- Errors of `parseContent`: `createTarget`'s unknown-message-type error
carrying the tag, or a `json.Unmarshal` failure for the content bytes. -/
inductive ContentErr where
  | unknownMessageType (tag : String)
  | contentUnmarshal
deriving DecidableEq, Repr

/-- `json.Unmarshal(content, target)` after a successful `createTarget`:
a nil `json.RawMessage` is an unmarshal error, otherwise the decoder for
the target type applies. -/
def decodeWith {M α : Type} (d : Bytes → Option α)
    (inj : α → ParsedContent M) (content : Option Bytes) :
    Except ContentErr (ParsedContent M) :=
  match content with
  | none => .error .contentUnmarshal
  | some bs =>
    match d bs with
    | some v => .ok (inj v)
    | none => .error .contentUnmarshal

/-- `parseContent`: `createTarget` switches on the message-type tag
(unknown tags fail), then the content bytes are unmarshalled into the
allocated target. -/
def parseContent {M : Type} (dec : ContentDecoders M) (msgType : String)
    (content : Option Bytes) : Except ContentErr (ParsedContent M) :=
  if msgType = "stream" then decodeWith dec.decStream .stream content
  else if msgType = "display_data" then
    decodeWith dec.decDisplayData .displayData content
  else if msgType = "update_display_data" then
    decodeWith dec.decUpdateDisplayData .updateDisplayData content
  else if msgType = "clear_output" then
    decodeWith dec.decClearOutput .clearOutput content
  else if msgType = "execute_input" then
    decodeWith dec.decExecuteInput .executeInput content
  else if msgType = "execute_result" then
    decodeWith dec.decExecuteResult .executeResult content
  else if msgType = "error" then decodeWith dec.decErrorMsg .errorMsg content
  else if msgType = "status" then decodeWith dec.decStatus .status content
  else .error (.unknownMessageType msgType)

/-- `maybeShouldListen`: only `execute_request` parents must always have a
listener. -/
def maybeShouldListen (msgType : String) : Bool :=
  msgType = RequestExecute

/-! ## Routing table and client state

A Go channel is modelled by the record of payloads delivered on it and
the number of times `close` was called on it; channels live in `chans`
and the routing table `ioChannels` maps a command message-id to an index
into `chans`, so that a channel outlives its removal from the table (as
the Go channel object does). -/

/-- An output channel: what was sent on it, and how often it was closed. -/
structure IOChan (M : Type) where
  delivered : List (ParsedContent M)
  closeCount : Nat
deriving DecidableEq, Repr

/-- The client's channel-routing state: `table` is the `ioChannels` map
(association list with map semantics), `chans` the channels created so
far. -/
structure ClientState (M : Type) where
  table : List (String × Nat)
  chans : List (IOChan M)
deriving DecidableEq, Repr

/-- Map lookup (`ch, ok := client.ioChannels[id]`). -/
def lookupTable : List (String × Nat) → String → Option Nat
  | [], _ => none
  | (k, v) :: rest, id => if k = id then some v else lookupTable rest id

/-- Map deletion (`delete(client.ioChannels, id)`). -/
def removeKey : List (String × Nat) → String → List (String × Nat)
  | [], _ => []
  | (k, v) :: rest, id =>
    if k = id then removeKey rest id else (k, v) :: removeKey rest id

/-- Update the element at an index, out-of-range is a no-op. -/
def modifyAt {α : Type _} (f : α → α) : Nat → List α → List α
  | _, [] => []
  | 0, x :: xs => f x :: xs
  | n + 1, x :: xs => x :: modifyAt f n xs

/-- A fresh client's routing state (`make(map[string]chan<- interface{})`,
no channels created yet). -/
def emptyState (M : Type) : ClientState M := ⟨[], []⟩

/-- `Client.addIOChannel`: make a fresh channel and insert it in the map
under the given id (map insert replaces any previous binding). -/
def addIOChannel {M : Type} (st : ClientState M) (id : String) :
    ClientState M :=
  ⟨(id, st.chans.length) :: removeKey st.table id,
    st.chans ++ [⟨[], 0⟩]⟩

/-- `Client.deleteIOChannel`: close the channel if the id is present, then
delete the map entry unconditionally. -/
def deleteIOChannel {M : Type} (st : ClientState M) (id : String) :
    ClientState M :=
  let chans :=
    match lookupTable st.table id with
    | some c => modifyAt (fun ch => { ch with closeCount := ch.closeCount + 1 }) c st.chans
    | none => st.chans
  ⟨removeKey st.table id, chans⟩

/-- `ch <- content`: record a delivery on the channel at an index. -/
def pushContent {M : Type} (st : ClientState M) (c : Nat)
    (content : ParsedContent M) : ClientState M :=
  ⟨st.table, modifyAt (fun ch => { ch with delivered := ch.delivered ++ [content] }) c st.chans⟩

/-- The trailing statement of the `pollIO` loop body: close the channel of
the parent id when the content is a status message in the idle state. -/
def idleMaybeClose {M : Type} (st : ClientState M)
    (content : ParsedContent M) (parentID : String) : ClientState M :=
  match content with
  | .status s => if s.ExecutionState = StateIdle then deleteIOChannel st parentID else st
  | _ => st

/-- How one `pollIO` iteration ended: proceed to the next message, or
return from `pollIO` (which makes `NewClient`'s goroutine cancel the
client context), or panic. -/
inductive PollExit where
  | drained
  | decodeFatal
  | decodePanic
  | contentFatal (e : ContentErr)
  | droppedFatal (parentType : String)
deriving DecidableEq, Repr

/-- Result of one loop iteration. -/
inductive StepRes (M : Type) where
  | next (st : ClientState M)
  | halt (st : ClientState M) (e : PollExit)
deriving DecidableEq, Repr

/-- The body of the `pollIO` loop for one received frame sequence:
decode, dispatch content, route by parent id (failing fatally on an
unmatched parent that should listen), then the idle close. -/
def pollStep {M C : Type} (cdc : Codec M C) (dec : ContentDecoders M)
    (signKey : Option Bytes) (st : ClientState M)
    (frames : List (Option Bytes)) : StepRes M :=
  match rawDecode cdc frames signKey with
  | .panics => .halt st .decodePanic
  | .error _ => .halt st .decodeFatal
  | .ok msg =>
    match parseContent dec msg.header.MsgType msg.content with
    | .error e => .halt st (.contentFatal e)
    | .ok content =>
      match lookupTable st.table msg.parentHeader.MsgID with
      | some c =>
        .next (idleMaybeClose (pushContent st c content) content msg.parentHeader.MsgID)
      | none =>
        if maybeShouldListen msg.parentHeader.MsgType then
          .halt st (.droppedFatal msg.parentHeader.MsgType)
        else
          .next (idleMaybeClose st content msg.parentHeader.MsgID)

/-- The `pollIO` loop over a finite prefix of the broadcast stream; an
exhausted list models the `Recv` failure that breaks the loop. -/
def pollLoop {M C : Type} (cdc : Codec M C) (dec : ContentDecoders M)
    (signKey : Option Bytes) : List (List (Option Bytes)) → ClientState M →
    ClientState M × PollExit
  | [], st => (st, .drained)
  | b :: rest, st =>
    match pollStep cdc dec signKey st b with
    | .next st1 => pollLoop cdc dec signKey rest st1
    | .halt st1 e => (st1, e)

/-- `Client.Execute` restricted to its routing-table effect: register a
channel under the fresh message id, then run `request` (send + recv),
whose success is supplied by a transport oracle. No cleanup of the table
happens on a failed request in the source. The returned flag is whether
`Execute` returned an error. -/
def clientExecute {M : Type} (st : ClientState M) (msgID : String)
    (requestFails : Bool) : ClientState M × Bool :=
  (addIOChannel st msgID, requestFails)

/-! ## Concrete instantiation used by witnesses and counterexamples

The serializer parameters are instantiated with a small executable codec
so that closed instances of the theorems can be evaluated. -/

/-- Sum of the bytes, used by the concrete test MAC. -/
def byteSum (bs : Bytes) : Nat := bs.foldl (· + ·) 0

/-- A header as the client's `createHeader` would build for `Execute`. -/
def hdrA : Header :=
  ⟨"id-A", "go-jupyter", "sess", "2024-01-01T00:00:00Z", RequestExecute, "5.3"⟩

/-- A kernel status-notification header. -/
def hdrStatus : Header := ⟨"n1", "kernel", "ksess", "d1", "status", "5.3"⟩

/-- A kernel stream-notification header. -/
def hdrStream : Header := ⟨"n2", "kernel", "ksess", "d2", "stream", "5.3"⟩

/-- A notification header with a tag no `createTarget` case handles. -/
def hdrBogus : Header := ⟨"n3", "kernel", "ksess", "d3", "bogus_type", "5.3"⟩

/-- A parent header whose message type is not `execute_request`. -/
def hdrOther : Header := ⟨"idZ", "u", "s", "d4", "kernel_info_request", "5.3"⟩

/-- Concrete `json.Unmarshal` at `Header` for the test codec. -/
def testUnmarH (bs : Bytes) : Option Header :=
  if bs = [1] then some hdrA
  else if bs = [2] then some hdrStatus
  else if bs = [3] then some hdrStream
  else if bs = [4] then some hdrBogus
  else if bs = [5] then some hdrOther
  else none

/-- The concrete test codec over trivial metadata and content types. -/
def testCodec : Codec Unit Unit where
  marH := fun h => if h = hdrA then [1] else [9]
  unmarH := testUnmarH
  marM := fun _ => [6]
  unmarM := fun bs => if bs = [6] then some () else none
  marC := fun _ => [7]
  unmarC := fun bs => if bs = [7] then some () else none
  jsonValid := fun _ => true
  macF := fun _ data => [byteSum data % 256]
  zeroM := ()

/-- Concrete content decoders for the test codec. -/
def testDec : ContentDecoders Unit where
  decStream := fun bs => if bs = [20] then some ⟨"stdout", "hi"⟩ else none
  decDisplayData := fun _ => none
  decUpdateDisplayData := fun _ => none
  decClearOutput := fun _ => none
  decExecuteInput := fun _ => none
  decExecuteResult := fun _ => none
  decErrorMsg := fun _ => none
  decStatus := fun bs =>
    if bs = [10] then some ⟨StateIdle⟩
    else if bs = [11] then some ⟨StateBusy⟩ else none

/-- A broadcast body carrying an idle status notification parented to the
command `"id-A"` (frames: delimiter, nil signature, header, parent,
metadata, content). -/
def idleBodyA : List (Option Bytes) :=
  [some delimiterToken, none, some [2], some [1], some [6], some [10], none]

/-- A stream notification parented to `"id-A"` (whose parent type is
`execute_request`). -/
def streamBodyA : List (Option Bytes) :=
  [some delimiterToken, none, some [3], some [1], some [6], some [20], none]

/-- A notification whose own message type is the unknown `"bogus_type"`. -/
def bogusBody : List (Option Bytes) :=
  [some delimiterToken, none, some [4], some [5], some [6], some [10], none]

/-- A stream notification parented to a non-execute message; with no table
entry it is silently dropped. -/
def streamBodyOther : List (Option Bytes) :=
  [some delimiterToken, none, some [3], some [5], some [6], some [20], none]

/-- A client state with one open routing entry for command `"id-A"`. -/
def stateA : ClientState Unit := ⟨[("id-A", 0)], [⟨[], 0⟩]⟩

/-- The message-type tags `createTarget` knows. -/
def knownMsgTypes : List String :=
  ["stream", "display_data", "update_display_data", "clear_output",
   "execute_input", "execute_result", "error", "status"]

/-- Replace byte `p` of frame `j` of a frame sequence by `b` (frames and
positions out of range are left alone; the claims constrain them). -/
def mutateFrame (w : List (Option Bytes)) (j p : Nat) (b : Nat) :
    List (Option Bytes) :=
  modifyAt (fun f => f.map fun bs => bs.set p b) j w

/-! ## Hex codec lemmas -/

/-- Decoding a hex digit of a nibble recovers the nibble. -/
theorem fromHexChar_hexDigit (x : Nat) (hx : x < 16) :
    fromHexChar (hexDigit x) = some x := by
  interval_cases x <;> decide

/-- `hex.Decode` inverts `hex.Encode` on genuine byte strings. -/
theorem hexDecodePairs_hexEncode (bs : Bytes) (hb : ∀ x ∈ bs, x < 256) :
    hexDecodePairs (hexEncode bs) = bs := by
  induction bs with
  | nil => rfl
  | cons b rest ih =>
    have h1 : b / 16 < 16 := by
      have : b < 256 := hb b (by simp)
      omega
    have h2 : b % 16 < 16 := Nat.mod_lt _ (by norm_num)
    simp only [hexEncode, hexDecodePairs, fromHexChar_hexDigit _ h1,
      fromHexChar_hexDigit _ h2]
    rw [ih (fun x hx => hb x (by simp [hx]))]
    congr 1
    omega

/-- Hex encoding doubles the length. -/
theorem hexEncode_length (bs : Bytes) : (hexEncode bs).length = 2 * bs.length := by
  induction bs with
  | nil => rfl
  | cons b rest ih =>
    simp only [hexEncode, List.length_cons, ih]
    omega

/-- The signature buffer `validateSignature` builds from an intact encoded
signature is exactly the original digest. -/
theorem goHexDecodeBuf_hexEncode (bs : Bytes) (hb : ∀ x ∈ bs, x < 256) :
    goHexDecodeBuf (hexEncode bs) = bs := by
  unfold goHexDecodeBuf
  rw [hexDecodePairs_hexEncode bs hb, hexEncode_length]
  have h2 : 2 * bs.length / 2 = bs.length :=
    Nat.mul_div_cancel_left bs.length (by norm_num)
  simp [h2]

/-! ## Evaluation lemmas for the canonical wire shape -/

/-- `validateSignature` on a seven-frame wire with the delimiter first:
the recomputed MAC over frames 2-5 is compared with the hex-decode of
frame 1. -/
theorem validateSignature_wire_eval (macF : Bytes → Bytes → Bytes)
    (k sig : Bytes) (p2 p3 p4 p5 p6 : Option Bytes) :
    validateSignature macF
      [some delimiterToken, some sig, p2, p3, p4, p5, p6] 0 (some k) =
      (if macF k (goBytes p2 ++ (goBytes p3 ++ (goBytes p4 ++ (goBytes p5 ++ [])))) =
          goHexDecodeBuf sig
       then .ok () else .error .invalidSignature) := rfl

/-- `unmarshalParts` on a seven-frame wire whose four content frames are
present and unmarshal successfully. -/
theorem unmarshalParts4_wire_some {M C : Type} (cdc : Codec M C)
    (p0 p1 : Option Bytes) (f1 f2 f3 f4 : Bytes) (p6 : Option Bytes)
    (H P : Header) (Md : M)
    (hH : cdc.unmarH f1 = some H) (hP : cdc.unmarH f2 = some P)
    (hMd : cdc.unmarM f3 = some Md) (hV : cdc.jsonValid f4 = true) :
    unmarshalParts4 cdc [p0, p1, some f1, some f2, some f3, some f4, p6] 2 =
      .ok ⟨H, P, Md, some f4⟩ := by
  simp only [unmarshalParts4, decodeField, unmarshalOne, unmarshalRes,
    show listGet [p0, p1, some f1, some f2, some f3, some f4, p6] 2 =
      some (some f1) from rfl,
    show listGet [p0, p1, some f1, some f2, some f3, some f4, p6] (2 + 1) =
      some (some f2) from rfl,
    show listGet [p0, p1, some f1, some f2, some f3, some f4, p6] (2 + 2) =
      some (some f3) from rfl,
    show listGet [p0, p1, some f1, some f2, some f3, some f4, p6] (2 + 3) =
      some (some f4) from rfl,
    hH, hP, hMd, hV, GoResult.bind, if_true]

/-- C1 helper: the whole decode pipeline on the wire frames produced for
an envelope, all serializer round trips supplied pointwise. -/
theorem decode_sendWireFrames {M C : Type} (cdc : Codec M C)
    (H P : Header) (Md : M) (c : C) (signKey : Option Bytes)
    (hH : cdc.unmarH (cdc.marH H) = some H)
    (hP : cdc.unmarH (cdc.marH P) = some P)
    (hMd : cdc.unmarM (cdc.marM Md) = some Md)
    (hC : cdc.unmarC (cdc.marC c) = some c)
    (hV : cdc.jsonValid (cdc.marC c) = true)
    (hdig : ∀ k, signKey = some k →
      ∀ x ∈ cdc.macF k
        (cdc.marH H ++ (cdc.marH P ++ (cdc.marM Md ++ (cdc.marC c ++ [])))),
        x < 256) :
    Message.decode cdc
      (sendWireFrames cdc ⟨H, P, Md, some c⟩ signKey) signKey =
      .ok ⟨H, P, Md, some c⟩ := by
  have hu := unmarshalParts4_wire_some cdc (some delimiterToken) none
    (cdc.marH H) (cdc.marH P) (cdc.marM Md) (cdc.marC c) none H P Md
    hH hP hMd hV
  cases signKey with
  | none =>
    show Message.decode cdc
      [some delimiterToken, none, some (cdc.marH H), some (cdc.marH P),
       some (cdc.marM Md), some (cdc.marC c), none] none =
      .ok ⟨H, P, Md, some c⟩
    simp only [Message.decode, rawDecode,
      show findIndex
        [some delimiterToken, none, some (cdc.marH H), some (cdc.marH P),
         some (cdc.marM Md), some (cdc.marC c), none] delimiterToken =
        some 0 from rfl,
      validateSignature, GoResult.bind]
    rw [show unmarshalParts4 cdc
        [some delimiterToken, none, some (cdc.marH H), some (cdc.marH P),
         some (cdc.marM Md), some (cdc.marC c), none] (0 + 2) =
        .ok ⟨H, P, Md, some (cdc.marC c)⟩ from hu]
    simp only [GoResult.bind, hC]
  | some k =>
    have hu2 := unmarshalParts4_wire_some cdc (some delimiterToken)
      (some (signMessage
        [some (cdc.marH H), some (cdc.marH P), some (cdc.marM Md),
         some (cdc.marC c), none] k cdc.macF))
      (cdc.marH H) (cdc.marH P) (cdc.marM Md) (cdc.marC c) none H P Md
      hH hP hMd hV
    show Message.decode cdc
      [some delimiterToken,
       some (signMessage
         [some (cdc.marH H), some (cdc.marH P), some (cdc.marM Md),
          some (cdc.marC c), none] k cdc.macF),
       some (cdc.marH H), some (cdc.marH P), some (cdc.marM Md),
       some (cdc.marC c), none] (some k) =
      .ok ⟨H, P, Md, some c⟩
    simp only [Message.decode, rawDecode,
      show findIndex
        [some delimiterToken,
         some (signMessage
           [some (cdc.marH H), some (cdc.marH P), some (cdc.marM Md),
            some (cdc.marC c), none] k cdc.macF),
         some (cdc.marH H), some (cdc.marH P), some (cdc.marM Md),
         some (cdc.marC c), none] delimiterToken = some 0 from rfl]
    rw [validateSignature_wire_eval]
    simp only [goBytes]
    rw [show signMessage
        [some (cdc.marH H), some (cdc.marH P), some (cdc.marM Md),
         some (cdc.marC c), none] k cdc.macF =
        hexEncode (cdc.macF k
          (cdc.marH H ++ (cdc.marH P ++ (cdc.marM Md ++ (cdc.marC c ++ [])))))
        from rfl,
      goHexDecodeBuf_hexEncode _ (hdig k rfl), if_pos rfl]
    simp only [GoResult.bind]
    rw [show unmarshalParts4 cdc
        [some delimiterToken,
         some (hexEncode (cdc.macF k
           (cdc.marH H ++ (cdc.marH P ++ (cdc.marM Md ++ (cdc.marC c ++ [])))))),
         some (cdc.marH H), some (cdc.marH P), some (cdc.marM Md),
         some (cdc.marC c), none] (0 + 2) =
        .ok ⟨H, P, Md, some (cdc.marC c)⟩ from hu2]
    simp only [GoResult.bind, hC]

/-! ## Generic decode-result lemmas -/

/-- The part at an index, when present, unmarshals to a field value or an
unmarshal error. -/
theorem decodeField_of_listGet {α : Type _} (u : Bytes → Option α) (z : α)
    (parts : List (Option Bytes)) (i : Nat) (f : Option Bytes)
    (hg : listGet parts i = some f) :
    decodeField u z parts i = unmarshalOne u z f := by
  unfold decodeField
  rw [hg]

/-- A decoded field is a panic, an unmarshal error, or a value. -/
theorem decodeField_cases {α : Type _} (u : Bytes → Option α) (z : α)
    (parts : List (Option Bytes)) (i : Nat) :
    decodeField u z parts i = .panics ∨
    decodeField u z parts i = .error .unmarshalErr ∨
    ∃ v, decodeField u z parts i = .ok v := by
  rcases hg : listGet parts i with _ | f
  · exact .inl (by unfold decodeField; rw [hg])
  · have hd := decodeField_of_listGet u z parts i f hg
    rcases f with _ | bs
    · exact .inr (.inr ⟨z, hd⟩)
    · rw [hd, show unmarshalOne u z (some bs) = unmarshalRes (u bs) from rfl]
      rcases u bs with _ | v
      · exact .inr (.inl rfl)
      · exact .inr (.inr ⟨v, rfl⟩)

/-- A decoded field never reports the invalid-signature error. -/
theorem decodeField_ne_invalidSig {α : Type _} (u : Bytes → Option α) (z : α)
    (parts : List (Option Bytes)) (i : Nat) :
    decodeField u z parts i ≠ .error .invalidSignature := by
  rcases decodeField_cases u z parts i with h | h | ⟨v, h⟩ <;> simp [h]

/-- Avoiding an error value is preserved by sequencing. -/
theorem bind_ne_invalidSig {α β : Type _} (r : GoResult α) (f : α → GoResult β)
    (hr : r ≠ .error .invalidSignature)
    (hf : ∀ a, f a ≠ .error .invalidSignature) :
    r.bind f ≠ .error .invalidSignature := by
  cases r with
  | ok a => exact hf a
  | error e =>
    intro hh
    exact hr (by simpa [GoResult.bind] using hh)
  | panics => simp [GoResult.bind]

/-- `unmarshalParts` never reports the invalid-signature error. -/
theorem unmarshalParts4_ne_invalidSig {M C : Type} (cdc : Codec M C)
    (parts : List (Option Bytes)) (s : Nat) :
    unmarshalParts4 cdc parts s ≠ .error .invalidSignature := by
  unfold unmarshalParts4
  refine bind_ne_invalidSig _ _ (decodeField_ne_invalidSig _ _ _ _) fun a => ?_
  refine bind_ne_invalidSig _ _ (decodeField_ne_invalidSig _ _ _ _) fun a2 => ?_
  refine bind_ne_invalidSig _ _ (decodeField_ne_invalidSig _ _ _ _) fun a3 => ?_
  refine bind_ne_invalidSig _ _ (decodeField_ne_invalidSig _ _ _ _) fun a4 => ?_
  simp

/-- `RawMessage.Decode` after the delimiter was found: signature check
then unmarshalling. -/
theorem rawDecode_eval {M C : Type} (cdc : Codec M C)
    (parts : List (Option Bytes)) (signKey : Option Bytes) (i : Nat)
    (hfind : findIndex parts delimiterToken = some i) :
    rawDecode cdc parts signKey =
      (validateSignature cdc.macF parts i signKey).bind fun _ =>
        unmarshalParts4 cdc parts (i + 2) := by
  unfold rawDecode
  rw [hfind]

/-- With the nil key, `RawMessage.Decode` cannot report the
invalid-signature error. -/
theorem rawDecode_none_ne_invalidSig {M C : Type} (cdc : Codec M C)
    (parts : List (Option Bytes)) :
    rawDecode cdc parts none ≠ .error .invalidSignature := by
  unfold rawDecode
  rcases findIndex parts delimiterToken with _ | i
  · simp
  · exact unmarshalParts4_ne_invalidSig cdc parts (i + 2)

/-- `findIndex` finds nothing when no part reads as the target. -/
theorem findIndexAux_eq_none (target : Bytes) (parts : List (Option Bytes))
    (h : ∀ p ∈ parts, goBytes p ≠ target) :
    ∀ i, findIndexAux target parts i = none := by
  induction parts with
  | nil => intro i; rfl
  | cons p rest ih =>
    intro i
    unfold findIndexAux
    rw [if_neg (h p (by simp))]
    exact ih (fun q hq => h q (by simp [hq])) (i + 1)

/-! ## List and routing-table lemmas -/

/-- Lookup past the end of a list. -/
theorem listGet_eq_none {α : Type _} (l : List α) (n : Nat)
    (h : l.length ≤ n) : listGet l n = none := by
  induction l generalizing n with
  | nil => rfl
  | cons x xs ih =>
    cases n with
    | zero => simp at h
    | succ m =>
      exact ih m (by simp only [List.length_cons] at h; omega)

/-- `modifyAt` preserves length. -/
theorem modifyAt_length {α : Type _} (f : α → α) (n : Nat) (l : List α) :
    (modifyAt f n l).length = l.length := by
  induction l generalizing n with
  | nil => cases n <;> rfl
  | cons x xs ih =>
    cases n with
    | zero => simp [modifyAt]
    | succ m => simp [modifyAt, ih]

/-- After deleting a key it can no longer be looked up. -/
theorem lookupTable_removeKey_self (t : List (String × Nat)) (k : String) :
    lookupTable (removeKey t k) k = none := by
  induction t with
  | nil => rfl
  | cons e rest ih =>
    obtain ⟨k1, v1⟩ := e
    by_cases hk : k1 = k
    · simp [removeKey, hk, ih]
    · simp [removeKey, lookupTable, hk, ih]

/-- Deleting an absent key is a no-op. -/
theorem removeKey_eq_self_of_lookup_none (t : List (String × Nat))
    (k : String) (h : lookupTable t k = none) : removeKey t k = t := by
  induction t with
  | nil => rfl
  | cons e rest ih =>
    obtain ⟨k1, v1⟩ := e
    by_cases hk : k1 = k
    · simp [lookupTable, hk] at h
    · simp only [lookupTable, if_neg hk] at h
      simp [removeKey, hk, ih h]

/-- The idle-close statement is a no-op for a parent id with no routing
entry (any close is skipped, the delete does not change the map). -/
theorem idleMaybeClose_of_lookup_none {M : Type} (st : ClientState M)
    (content : ParsedContent M) (k : String)
    (h : lookupTable st.table k = none) :
    idleMaybeClose st content k = st := by
  cases content with
  | status s =>
    by_cases hs : s.ExecutionState = StateIdle
    · simp [idleMaybeClose, hs, deleteIOChannel, h,
        removeKey_eq_self_of_lookup_none st.table k h]
    · simp [idleMaybeClose, hs]
  | stream v => rfl
  | displayData v => rfl
  | updateDisplayData v => rfl
  | clearOutput v => rfl
  | executeInput v => rfl
  | executeResult v => rfl
  | errorMsg v => rfl

/-! ## `pollIO` evaluation lemmas -/

/-- One `pollIO` iteration whose body decoded successfully. -/
theorem pollStep_eval {M C : Type} (cdc : Codec M C) (dec : ContentDecoders M)
    (signKey : Option Bytes) (st : ClientState M)
    (body : List (Option Bytes)) (msg : RawMessage M)
    (hdec : rawDecode cdc body signKey = .ok msg) :
    pollStep cdc dec signKey st body =
      (match parseContent dec msg.header.MsgType msg.content with
       | .error e => .halt st (.contentFatal e)
       | .ok content =>
         match lookupTable st.table msg.parentHeader.MsgID with
         | some c =>
           .next (idleMaybeClose (pushContent st c content) content
             msg.parentHeader.MsgID)
         | none =>
           if maybeShouldListen msg.parentHeader.MsgType then
             .halt st (.droppedFatal msg.parentHeader.MsgType)
           else
             .next (idleMaybeClose st content msg.parentHeader.MsgID)) := by
  unfold pollStep
  rw [hdec]

/-- One `pollIO` iteration whose body decoded and whose content parsed. -/
theorem pollStep_eval_ok {M C : Type} (cdc : Codec M C)
    (dec : ContentDecoders M) (signKey : Option Bytes) (st : ClientState M)
    (body : List (Option Bytes)) (msg : RawMessage M)
    (content : ParsedContent M)
    (hdec : rawDecode cdc body signKey = .ok msg)
    (hpc : parseContent dec msg.header.MsgType msg.content = .ok content) :
    pollStep cdc dec signKey st body =
      (match lookupTable st.table msg.parentHeader.MsgID with
       | some c =>
         .next (idleMaybeClose (pushContent st c content) content
           msg.parentHeader.MsgID)
       | none =>
         if maybeShouldListen msg.parentHeader.MsgType then
           .halt st (.droppedFatal msg.parentHeader.MsgType)
         else
           .next (idleMaybeClose st content msg.parentHeader.MsgID)) := by
  rw [pollStep_eval cdc dec signKey st body msg hdec, hpc]

/-! ## Claim theorems -/

/-- C1: round trip — decoding the frame sequence placed on the wire for a
valid envelope (the delimiter-token frame followed by `Message.Encode`'s
frames, as `sendRequest` sends them) with the same signing key, nil key
included, returns the envelope unchanged, content compared at its decoded
type.  Validity of the envelope is the pointwise serializer round trips,
a present content payload, and a digest that consists of bytes. -/
theorem c1_encode_decode_roundtrip {M C : Type} (cdc : Codec M C)
    (E : Message M C) (signKey : Option Bytes) (c : C)
    (hc : E.content = some c)
    (hH : cdc.unmarH (cdc.marH E.header) = some E.header)
    (hP : cdc.unmarH (cdc.marH E.parentHeader) = some E.parentHeader)
    (hMd : cdc.unmarM (cdc.marM E.metadata) = some E.metadata)
    (hC : cdc.unmarC (cdc.marC c) = some c)
    (hV : cdc.jsonValid (cdc.marC c) = true)
    (hdig : ∀ k, signKey = some k →
      ∀ x ∈ cdc.macF k (cdc.marH E.header ++ (cdc.marH E.parentHeader ++
        (cdc.marM E.metadata ++ (cdc.marC c ++ [])))), x < 256) :
    Message.decode cdc (sendWireFrames cdc E signKey) signKey = .ok E := by
  obtain ⟨H, P, Md, Ct⟩ := E
  obtain rfl : Ct = some c := hc
  exact decode_sendWireFrames cdc H P Md c signKey hH hP hMd hC hV hdig

/-- Witness for C1: a concrete round trip through the test codec with the
signing key `[3]`. -/
theorem c1_encode_decode_roundtrip_witness :
    Message.decode testCodec
      (sendWireFrames testCodec ⟨hdrA, hdrA, (), some ()⟩ (some [3]))
      (some [3]) = .ok ⟨hdrA, hdrA, (), some ()⟩ :=
  c1_encode_decode_roundtrip testCodec ⟨hdrA, hdrA, (), some ()⟩ (some [3]) ()
    rfl (by decide) (by decide) (by decide) (by decide) (by decide)
    (fun k hk => by
      injection hk with h
      subst h
      decide)

/-- C5: unsigned tolerance — with the nil (empty) signing key the encoder
leaves the signature frame nil, `validateSignature` accepts any frame
sequence at any index without comparing anything, and no decode ever
fails with the invalid-signature error, regardless of frame contents. -/
theorem c5_empty_key_skips_verification {M C : Type} (cdc : Codec M C) :
    (∀ msg : Message M C, listGet (Message.encode cdc msg none) 0 = some none) ∧
    (∀ (parts : List (Option Bytes)) (index : Nat),
      validateSignature cdc.macF parts index none = .ok ()) ∧
    (∀ parts : List (Option Bytes),
      rawDecode cdc parts none ≠ .error .invalidSignature) ∧
    (∀ parts : List (Option Bytes),
      Message.decode cdc parts none ≠ .error .invalidSignature) := by
  refine ⟨fun msg => rfl, fun parts index => rfl,
    fun parts => rawDecode_none_ne_invalidSig cdc parts, fun parts => ?_⟩
  unfold Message.decode
  refine bind_ne_invalidSig _ _ (rawDecode_none_ne_invalidSig cdc parts)
    fun raw => ?_
  rcases hrc : raw.content with _ | bs
  · simp [hrc]
  · simp only [hrc]
    rcases hu : cdc.unmarC bs with _ | c <;> simp [hu]

/-- C7 counterexample: the sequence `sendRequest` puts on the wire for a
concrete envelope has seven frames, not six — `Message.Encode` allocates
six frames but assigns only five of them, leaving a trailing nil frame
after the four content frames. -/
theorem c7_counterexample :
    (sendWireFrames testCodec ⟨hdrA, hdrA, (), some ()⟩ (some [3])).length = 7 ∧
    ¬ (sendWireFrames testCodec ⟨hdrA, hdrA, (), some ()⟩ (some [3])).length = 6 := by
  decide

/-- C7 (amended): every wire message consists of exactly seven frames in
the order delimiter-token, signature (nil when the key is nil), header,
parent-header, metadata, content, and one trailing nil frame — so the
delimiter is locatable at index 0 and the four content frames occupy the
four positions after the signature slot, followed by the extra empty
frame. -/
theorem c7_wire_framing {M C : Type} (cdc : Codec M C) (msg : Message M C)
    (signKey : Option Bytes) :
    sendWireFrames cdc msg signKey =
      [some delimiterToken,
       (match signKey with
        | none => none
        | some k => some (signMessage
            [some (cdc.marH msg.header), some (cdc.marH msg.parentHeader),
             some (cdc.marM msg.metadata), msg.content.map cdc.marC, none]
            k cdc.macF)),
       some (cdc.marH msg.header), some (cdc.marH msg.parentHeader),
       some (cdc.marM msg.metadata), msg.content.map cdc.marC, none] ∧
    (sendWireFrames cdc msg signKey).length = 7 ∧
    findIndex (sendWireFrames cdc msg signKey) delimiterToken = some 0 :=
  ⟨rfl, rfl, rfl⟩

/-- C8: a frame sequence in which no frame reads as the delimiter token
decodes to the not-found error, at `RawMessage.Decode` and at
`Message.Decode`; in particular decoding neither panics nor returns a
zero-value envelope with no error. -/
theorem c8_missing_delimiter_not_found {M C : Type} (cdc : Codec M C)
    (parts : List (Option Bytes)) (signKey : Option Bytes)
    (hnd : ∀ p ∈ parts, goBytes p ≠ delimiterToken) :
    rawDecode cdc parts signKey = .error .notFound ∧
    Message.decode cdc parts signKey = .error .notFound := by
  have hf : findIndex parts delimiterToken = none :=
    findIndexAux_eq_none delimiterToken parts hnd 0
  constructor
  · unfold rawDecode
    rw [hf]
  · unfold Message.decode rawDecode
    rw [hf]
    rfl

/-- Witness for C8: a concrete delimiter-free frame sequence. -/
theorem c8_missing_delimiter_witness :
    rawDecode testCodec [some [1, 2], none] (some [1]) = .error .notFound ∧
    Message.decode testCodec ([some [1, 2], none] : List (Option Bytes))
      (some [1]) = .error .notFound :=
  c8_missing_delimiter_not_found testCodec [some [1, 2], none] (some [1])
    (by decide)

/-- C3 (code bug): when the request of an `Execute` command fails, the
source returns the error without closing or removing the routing-table
entry it had just registered.  Evaluated at the failing input — a fresh
client, message id `"id-A"`, failing send/recv — `Execute` reports the
error, yet the entry is still in the table and its channel was never
closed. -/
theorem c3_entry_leaks_on_failed_request :
    (clientExecute (emptyState Unit) "id-A" true).2 = true ∧
    lookupTable (clientExecute (emptyState Unit) "id-A" true).1.table "id-A" =
      some 0 ∧
    (clientExecute (emptyState Unit) "id-A" true).1.chans = [⟨[], 0⟩] := by
  decide

/-- C4: signature rejection — for a non-nil key, replacing byte `p` of
content frame `j` (frames 2-5 of the wire) of an encoded envelope by `b`
makes both decodes fail with the invalid-signature error.  The HMAC
soundness assumption is the hypothesis that the digest of the mutated
frame concatenation differs from the original digest (whose entries are
bytes). -/
theorem c4_signature_rejection {M C : Type} (cdc : Codec M C)
    (H P : Header) (Md : M) (c : C) (k : Bytes) (j p b : Nat) (hj : j < 4)
    (hdig : ∀ x ∈ cdc.macF k (cdc.marH H ++ (cdc.marH P ++
      (cdc.marM Md ++ (cdc.marC c ++ [])))), x < 256)
    (hmac : cdc.macF k (contentConcat
        (mutateFrame (sendWireFrames cdc ⟨H, P, Md, some c⟩ (some k))
          (j + 2) p b) 0) ≠
      cdc.macF k (cdc.marH H ++ (cdc.marH P ++
        (cdc.marM Md ++ (cdc.marC c ++ []))))) :
    rawDecode cdc
      (mutateFrame (sendWireFrames cdc ⟨H, P, Md, some c⟩ (some k)) (j + 2) p b)
      (some k) = .error .invalidSignature ∧
    Message.decode cdc
      (mutateFrame (sendWireFrames cdc ⟨H, P, Md, some c⟩ (some k)) (j + 2) p b)
      (some k) = .error .invalidSignature := by
  have hfind : findIndex
      (mutateFrame (sendWireFrames cdc ⟨H, P, Md, some c⟩ (some k)) (j + 2) p b)
      delimiterToken = some 0 := rfl
  have hle : 0 + 6 ≤ (mutateFrame
      (sendWireFrames cdc ⟨H, P, Md, some c⟩ (some k)) (j + 2) p b).length := by
    unfold mutateFrame
    rw [modifyAt_length]
    show (0 + 6 : Nat) ≤ 7
    decide
  have hsig : goBytes ((listGet
      (mutateFrame (sendWireFrames cdc ⟨H, P, Md, some c⟩ (some k)) (j + 2) p b)
      (0 + 1)).getD none) =
      hexEncode (cdc.macF k (cdc.marH H ++ (cdc.marH P ++
        (cdc.marM Md ++ (cdc.marC c ++ []))))) := rfl
  have hv : validateSignature cdc.macF
      (mutateFrame (sendWireFrames cdc ⟨H, P, Md, some c⟩ (some k)) (j + 2) p b)
      0 (some k) = .error .invalidSignature := by
    simp only [validateSignature]
    rw [if_pos hle, hsig, goHexDecodeBuf_hexEncode _ hdig, if_neg hmac]
  have hraw : rawDecode cdc
      (mutateFrame (sendWireFrames cdc ⟨H, P, Md, some c⟩ (some k)) (j + 2) p b)
      (some k) = .error .invalidSignature := by
    rw [rawDecode_eval cdc _ (some k) 0 hfind, hv]
    rfl
  refine ⟨hraw, ?_⟩
  unfold Message.decode
  rw [hraw]
  rfl

/-- Witness for C4: mutating the single content-frame byte of a concrete
encoded envelope flips the test MAC and decoding rejects the message. -/
theorem c4_signature_rejection_witness :
    rawDecode testCodec
      (mutateFrame (sendWireFrames testCodec ⟨hdrA, hdrA, (), some ()⟩
        (some [3])) (3 + 2) 0 8) (some [3]) = .error .invalidSignature ∧
    Message.decode testCodec
      (mutateFrame (sendWireFrames testCodec ⟨hdrA, hdrA, (), some ()⟩
        (some [3])) (3 + 2) 0 8) (some [3]) = .error .invalidSignature :=
  c4_signature_rejection testCodec hdrA hdrA () () [3] 3 0 8
    (by decide) (by decide) (by decide)

/-- Short-sequence behaviour of `unmarshalParts`: with fewer than four
parts available from the start index it panics or reports an unmarshal
error for an in-range frame, and never succeeds. -/
theorem unmarshalParts4_short {M C : Type} (cdc : Codec M C)
    (parts : List (Option Bytes)) (s : Nat) (hs : parts.length < s + 4) :
    unmarshalParts4 cdc parts s = .panics ∨
    unmarshalParts4 cdc parts s = .error .unmarshalErr := by
  have h4 : decodeField
      (fun bs => if cdc.jsonValid bs then some (some bs) else none) none
      parts (s + 3) = .panics := by
    unfold decodeField
    rw [listGet_eq_none parts (s + 3) (by omega)]
  unfold unmarshalParts4
  rcases decodeField_cases cdc.unmarH zeroHeader parts s with h | h | ⟨v, h⟩ <;>
    rw [h]
  · exact .inl rfl
  · exact .inr rfl
  · simp only [GoResult.bind]
    rcases decodeField_cases cdc.unmarH zeroHeader parts (s + 1) with
      h1 | h1 | ⟨v1, h1⟩ <;> rw [h1]
    · exact .inl rfl
    · exact .inr rfl
    · simp only [GoResult.bind]
      rcases decodeField_cases cdc.unmarM cdc.zeroM parts (s + 2) with
        h2 | h2 | ⟨v2, h2⟩ <;> rw [h2]
      · exact .inl rfl
      · exact .inr rfl
      · simp only [GoResult.bind]
        rw [h4]
        exact .inl rfl

/-- C10 counterexample: with the nil key, the delimiter at index 0 and
only three frames, `RawMessage.Decode` returns an unmarshal error
normally — the malformed in-range frame is hit before any out-of-range
access, contradicting the claim that decoding never returns normally
with an error on such sequences. -/
theorem c10_counterexample :
    findIndex [some delimiterToken, some [9], some [9]] delimiterToken =
      some 0 ∧
    ([some delimiterToken, some [9], some [9]] :
      List (Option Bytes)).length < 0 + 6 ∧
    rawDecode testCodec [some delimiterToken, some [9], some [9]] none =
      .error .unmarshalErr := by
  refine ⟨rfl, by decide, rfl⟩

/-- C10 (amended): when the delimiter sits at index `i` of a frame
sequence shorter than `i + 6`, decoding with a configured key panics on
the out-of-range signature slice; with the nil key it panics on the first
out-of-range frame access unless an in-range frame fails to unmarshal
first, in which case that unmarshal error is returned — it never
succeeds. -/
theorem c10_short_sequence {M C : Type} (cdc : Codec M C)
    (parts : List (Option Bytes)) (i : Nat) (signKey : Option Bytes)
    (hfind : findIndex parts delimiterToken = some i)
    (hlen : parts.length < i + 6) :
    (∀ k, signKey = some k → rawDecode cdc parts signKey = .panics) ∧
    (signKey = none →
      rawDecode cdc parts signKey = .panics ∨
      rawDecode cdc parts signKey = .error .unmarshalErr) := by
  constructor
  · rintro k rfl
    rw [rawDecode_eval cdc parts (some k) i hfind]
    have hv : validateSignature cdc.macF parts i (some k) = .panics := by
      simp only [validateSignature]
      rw [if_neg (by omega)]
    rw [hv]
    rfl
  · rintro rfl
    have hr : rawDecode cdc parts none = unmarshalParts4 cdc parts (i + 2) := by
      rw [rawDecode_eval cdc parts none i hfind]
      rfl
    rw [hr]
    exact unmarshalParts4_short cdc parts (i + 2) (by omega)

/-- Witness for C10: the amended statement evaluated at a concrete
three-frame sequence with a configured key (the panic branch). -/
theorem c10_short_sequence_witness :
    (∀ k, (some [7] : Option Bytes) = some k →
      rawDecode testCodec [some delimiterToken, some [9], some [9]]
        (some [7]) = .panics) ∧
    ((some [7] : Option Bytes) = none →
      rawDecode testCodec [some delimiterToken, some [9], some [9]]
        (some [7]) = .panics ∨
      rawDecode testCodec [some delimiterToken, some [9], some [9]]
        (some [7]) = .error .unmarshalErr) :=
  c10_short_sequence testCodec [some delimiterToken, some [9], some [9]] 0
    (some [7]) (by decide) (by decide)

/-- C2 counterexample: a broadcast message with the unknown tag
`"bogus_type"` makes the `pollIO` loop return the unknown-message-type
error with the following well-formed message left undrained — although
that following message alone is drained fine — contradicting the claim
that an unknown tag never terminates the loop. -/
theorem c2_counterexample :
    pollLoop testCodec testDec none [bogusBody, streamBodyOther]
      (emptyState Unit) =
      (emptyState Unit, .contentFatal (.unknownMessageType "bogus_type")) ∧
    (pollLoop testCodec testDec none [streamBodyOther] (emptyState Unit)).2 =
      .drained := by
  constructor <;> rfl

/-- C2 (amended): a broadcast message whose tag is unknown makes
`parseContent` fail with the unknown-message-type error and `pollIO`
return that error, terminating the drain loop with the routing state
untouched; the remaining messages are not processed. -/
theorem c2_unknown_tag_fatal {M C : Type} (cdc : Codec M C)
    (dec : ContentDecoders M) (signKey : Option Bytes) (st : ClientState M)
    (body : List (Option Bytes)) (rest : List (List (Option Bytes)))
    (msg : RawMessage M)
    (hdec : rawDecode cdc body signKey = .ok msg)
    (hunk : msg.header.MsgType ∉ knownMsgTypes) :
    pollLoop cdc dec signKey (body :: rest) st =
      (st, .contentFatal (.unknownMessageType msg.header.MsgType)) := by
  have hpc : parseContent dec msg.header.MsgType msg.content =
      .error (.unknownMessageType msg.header.MsgType) := by
    simp only [knownMsgTypes, List.mem_cons, List.not_mem_nil, or_false,
      not_or] at hunk
    obtain ⟨n1, n2, n3, n4, n5, n6, n7, n8⟩ := hunk
    unfold parseContent
    rw [if_neg n1, if_neg n2, if_neg n3, if_neg n4, if_neg n5, if_neg n6,
      if_neg n7, if_neg n8]
  simp only [pollLoop]
  rw [pollStep_eval cdc dec signKey st body msg hdec, hpc]

/-- Witness for C2 (amended): the concrete unknown-tag body halts the
loop with the unknown-message-type error. -/
theorem c2_unknown_tag_fatal_witness :
    pollLoop testCodec testDec none [bogusBody, streamBodyOther]
      (emptyState Unit) =
      (emptyState Unit, .contentFatal (.unknownMessageType "bogus_type")) :=
  c2_unknown_tag_fatal testCodec testDec none (emptyState Unit) bogusBody
    [streamBodyOther] ⟨hdrBogus, hdrOther, (), some [10]⟩ rfl (by decide)

/-- C6 counterexample: after the idle status notification closes and
removes command `"id-A"`'s routing entry, a further notification
parented to `"id-A"` (whose parent type is `execute_request`) terminates
the loop with the dropped-message error instead of being silently
dropped. -/
theorem c6_counterexample :
    pollLoop testCodec testDec none [idleBodyA, streamBodyA] stateA =
      (⟨[], [⟨[.status ⟨StateIdle⟩], 1⟩]⟩, .droppedFatal RequestExecute) := by
  rfl

/-- C6 (amended): an idle status notification parented to a command with
an open routing entry delivers the notification, closes the channel (its
close count goes up by one, from zero to exactly one for a
freshly-registered entry) and removes the entry; thereafter any routing
state without an entry for that id treats further notifications
parented to it as unsolicited: they leave the state untouched (so the
channel is neither closed again nor delivered to) when the parent
message type is not `execute_request`, and terminate the loop with the
dropped-message error when it is. -/
theorem c6_idle_closes_once {M C : Type} (cdc : Codec M C)
    (dec : ContentDecoders M) (signKey : Option Bytes) (st : ClientState M)
    (A : String) (cidx : Nat) (b1 : List (Option Bytes))
    (msg1 : RawMessage M)
    (hlk : lookupTable st.table A = some cidx)
    (hdec1 : rawDecode cdc b1 signKey = .ok msg1)
    (hpid1 : msg1.parentHeader.MsgID = A)
    (hpc1 : parseContent dec msg1.header.MsgType msg1.content =
      .ok (.status ⟨StateIdle⟩)) :
    pollStep cdc dec signKey st b1 = .next
      ⟨removeKey st.table A,
       modifyAt (fun ch => { ch with closeCount := ch.closeCount + 1 }) cidx
         (modifyAt (fun ch =>
            { ch with delivered := ch.delivered ++ [.status ⟨StateIdle⟩] })
            cidx st.chans)⟩ ∧
    lookupTable (removeKey st.table A) A = none ∧
    (∀ st1 : ClientState M, lookupTable st1.table A = none →
      ∀ (b2 : List (Option Bytes)) (msg2 : RawMessage M)
        (content2 : ParsedContent M),
        rawDecode cdc b2 signKey = .ok msg2 →
        msg2.parentHeader.MsgID = A →
        parseContent dec msg2.header.MsgType msg2.content = .ok content2 →
        (msg2.parentHeader.MsgType = RequestExecute →
          pollStep cdc dec signKey st1 b2 =
            .halt st1 (.droppedFatal RequestExecute)) ∧
        (msg2.parentHeader.MsgType ≠ RequestExecute →
          pollStep cdc dec signKey st1 b2 = .next st1)) := by
  refine ⟨?_, lookupTable_removeKey_self st.table A, ?_⟩
  · rw [pollStep_eval_ok cdc dec signKey st b1 msg1 (.status ⟨StateIdle⟩)
      hdec1 hpc1, hpid1, hlk]
    simp [idleMaybeClose, deleteIOChannel, pushContent, hlk]
  · intro st1 h1 b2 msg2 content2 hdec2 hpid2 hpc2
    constructor
    · intro hty
      rw [pollStep_eval_ok cdc dec signKey st1 b2 msg2 content2 hdec2 hpc2,
        hpid2, h1, hty]
      rfl
    · intro hty
      rw [pollStep_eval_ok cdc dec signKey st1 b2 msg2 content2 hdec2 hpc2,
        hpid2, h1]
      show (if maybeShouldListen msg2.parentHeader.MsgType then
              StepRes.halt st1 (.droppedFatal msg2.parentHeader.MsgType)
            else .next (idleMaybeClose st1 content2 A)) = .next st1
      have hm : maybeShouldListen msg2.parentHeader.MsgType = false := by
        simp [maybeShouldListen, hty]
      rw [hm]
      show StepRes.next (idleMaybeClose st1 content2 A) = .next st1
      rw [idleMaybeClose_of_lookup_none st1 content2 A h1]

/-- Witness for C6 (amended): evaluating the idle close of command
`"id-A"` in the concrete one-entry state. -/
theorem c6_idle_closes_once_witness :
    pollStep testCodec testDec none stateA idleBodyA = .next
      ⟨removeKey stateA.table "id-A",
       modifyAt (fun ch => { ch with closeCount := ch.closeCount + 1 }) 0
         (modifyAt (fun ch =>
            { ch with delivered := ch.delivered ++ [.status ⟨StateIdle⟩] })
            0 stateA.chans)⟩ ∧
    lookupTable (removeKey stateA.table "id-A") "id-A" = none ∧
    (∀ st1 : ClientState Unit, lookupTable st1.table "id-A" = none →
      ∀ (b2 : List (Option Bytes)) (msg2 : RawMessage Unit)
        (content2 : ParsedContent Unit),
        rawDecode testCodec b2 none = .ok msg2 →
        msg2.parentHeader.MsgID = "id-A" →
        parseContent testDec msg2.header.MsgType msg2.content = .ok content2 →
        (msg2.parentHeader.MsgType = RequestExecute →
          pollStep testCodec testDec none st1 b2 =
            .halt st1 (.droppedFatal RequestExecute)) ∧
        (msg2.parentHeader.MsgType ≠ RequestExecute →
          pollStep testCodec testDec none st1 b2 = .next st1)) :=
  c6_idle_closes_once testCodec testDec none stateA "id-A" 0 idleBodyA
    ⟨hdrStatus, hdrA, (), some [10]⟩ rfl rfl rfl rfl

/-- C9 counterexample: with the content frame nil (and the other frames
fine), `RawMessage.Decode` succeeds with a zero-value content, but
`Message.Decode` — which the claim explicitly includes — fails with an
unmarshal error caused exactly by the absent optional frame. -/
theorem c9_counterexample :
    rawDecode testCodec
      [some delimiterToken, none, some [1], some [1], some [6], none, none]
      none = .ok ⟨hdrA, hdrA, (), none⟩ ∧
    Message.decode testCodec
      ([some delimiterToken, none, some [1], some [1], some [6], none, none] :
        List (Option Bytes)) none = .error .unmarshalErr := by
  constructor <;> rfl

/-- C9 (amended): absent (nil) frames among the four content frames are
tolerated by `RawMessage.Decode`: decoding succeeds (the signature
passing and present frames unmarshalling), the fields of absent frames
being the Go zero values; but an absent content frame makes
`Message.Decode` fail with an unmarshal error when it decodes the
content payload. -/
theorem c9_absent_frames_zero {M C : Type} (cdc : Codec M C)
    (p1 f1 f2 f3 f4 : Option Bytes) (signKey : Option Bytes)
    (hsig : validateSignature cdc.macF
      [some delimiterToken, p1, f1, f2, f3, f4, none] 0 signKey = .ok ())
    (h1 : ∀ bs, f1 = some bs → ∃ v, cdc.unmarH bs = some v)
    (h2 : ∀ bs, f2 = some bs → ∃ v, cdc.unmarH bs = some v)
    (h3 : ∀ bs, f3 = some bs → ∃ v, cdc.unmarM bs = some v)
    (h4 : ∀ bs, f4 = some bs → cdc.jsonValid bs = true) :
    (∃ raw : RawMessage M,
      rawDecode cdc [some delimiterToken, p1, f1, f2, f3, f4, none] signKey =
        .ok raw ∧
      (f1 = none → raw.header = zeroHeader) ∧
      (f2 = none → raw.parentHeader = zeroHeader) ∧
      (f3 = none → raw.metadata = cdc.zeroM) ∧
      (f4 = none → raw.content = none)) ∧
    (f4 = none →
      Message.decode cdc [some delimiterToken, p1, f1, f2, f3, f4, none]
        signKey = .error .unmarshalErr) := by
  have e1 : ∃ v, decodeField cdc.unmarH zeroHeader
      [some delimiterToken, p1, f1, f2, f3, f4, none] 2 = .ok v ∧
      (f1 = none → v = zeroHeader) := by
    rcases f1 with _ | bs
    · exact ⟨zeroHeader,
        decodeField_of_listGet cdc.unmarH zeroHeader
          [some delimiterToken, p1, none, f2, f3, f4, none] 2 none rfl,
        fun _ => rfl⟩
    · obtain ⟨v, hv⟩ := h1 bs rfl
      refine ⟨v, ?_, fun h => by simp at h⟩
      rw [decodeField_of_listGet cdc.unmarH zeroHeader
          [some delimiterToken, p1, some bs, f2, f3, f4, none] 2 (some bs) rfl,
        show unmarshalOne cdc.unmarH zeroHeader (some bs) =
          unmarshalRes (cdc.unmarH bs) from rfl, hv]
      rfl
  have e2 : ∃ v, decodeField cdc.unmarH zeroHeader
      [some delimiterToken, p1, f1, f2, f3, f4, none] 3 = .ok v ∧
      (f2 = none → v = zeroHeader) := by
    rcases f2 with _ | bs
    · exact ⟨zeroHeader,
        decodeField_of_listGet cdc.unmarH zeroHeader
          [some delimiterToken, p1, f1, none, f3, f4, none] 3 none rfl,
        fun _ => rfl⟩
    · obtain ⟨v, hv⟩ := h2 bs rfl
      refine ⟨v, ?_, fun h => by simp at h⟩
      rw [decodeField_of_listGet cdc.unmarH zeroHeader
          [some delimiterToken, p1, f1, some bs, f3, f4, none] 3 (some bs) rfl,
        show unmarshalOne cdc.unmarH zeroHeader (some bs) =
          unmarshalRes (cdc.unmarH bs) from rfl, hv]
      rfl
  have e3 : ∃ v, decodeField cdc.unmarM cdc.zeroM
      [some delimiterToken, p1, f1, f2, f3, f4, none] 4 = .ok v ∧
      (f3 = none → v = cdc.zeroM) := by
    rcases f3 with _ | bs
    · exact ⟨cdc.zeroM,
        decodeField_of_listGet cdc.unmarM cdc.zeroM
          [some delimiterToken, p1, f1, f2, none, f4, none] 4 none rfl,
        fun _ => rfl⟩
    · obtain ⟨v, hv⟩ := h3 bs rfl
      refine ⟨v, ?_, fun h => by simp at h⟩
      rw [decodeField_of_listGet cdc.unmarM cdc.zeroM
          [some delimiterToken, p1, f1, f2, some bs, f4, none] 4 (some bs) rfl,
        show unmarshalOne cdc.unmarM cdc.zeroM (some bs) =
          unmarshalRes (cdc.unmarM bs) from rfl, hv]
      rfl
  have e4 : ∃ v, decodeField
      (fun bs => if cdc.jsonValid bs then some (some bs) else none) none
      [some delimiterToken, p1, f1, f2, f3, f4, none] 5 = .ok v ∧
      (f4 = none → v = none) := by
    rcases f4 with _ | bs
    · exact ⟨none, decodeField_of_listGet
        (fun bs => if cdc.jsonValid bs then some (some bs) else none) none
        [some delimiterToken, p1, f1, f2, f3, none, none] 5 none rfl,
        fun _ => rfl⟩
    · refine ⟨some bs, ?_, fun h => by simp at h⟩
      rw [decodeField_of_listGet
          (fun bs => if cdc.jsonValid bs then some (some bs) else none) none
          [some delimiterToken, p1, f1, f2, f3, some bs, none] 5 (some bs) rfl,
        show unmarshalOne
          (fun bs => if cdc.jsonValid bs then some (some bs) else none) none
          (some bs) =
          unmarshalRes (if cdc.jsonValid bs then some (some bs) else none)
          from rfl, h4 bs rfl]
      rfl
  obtain ⟨v1, hv1, hz1⟩ := e1
  obtain ⟨v2, hv2, hz2⟩ := e2
  obtain ⟨v3, hv3, hz3⟩ := e3
  obtain ⟨v4, hv4, hz4⟩ := e4
  have hraw : rawDecode cdc [some delimiterToken, p1, f1, f2, f3, f4, none]
      signKey = .ok ⟨v1, v2, v3, v4⟩ := by
    rw [rawDecode_eval cdc [some delimiterToken, p1, f1, f2, f3, f4, none]
      signKey 0 rfl, hsig]
    simp only [GoResult.bind]
    unfold unmarshalParts4
    rw [show decodeField cdc.unmarH zeroHeader
        [some delimiterToken, p1, f1, f2, f3, f4, none] (0 + 2) = .ok v1
        from hv1]
    simp only [GoResult.bind]
    rw [show decodeField cdc.unmarH zeroHeader
        [some delimiterToken, p1, f1, f2, f3, f4, none] (0 + 2 + 1) = .ok v2
        from hv2]
    simp only [GoResult.bind]
    rw [show decodeField cdc.unmarM cdc.zeroM
        [some delimiterToken, p1, f1, f2, f3, f4, none] (0 + 2 + 2) = .ok v3
        from hv3]
    simp only [GoResult.bind]
    rw [show decodeField
        (fun bs => if cdc.jsonValid bs then some (some bs) else none) none
        [some delimiterToken, p1, f1, f2, f3, f4, none] (0 + 2 + 3) = .ok v4
        from hv4]
  refine ⟨⟨⟨v1, v2, v3, v4⟩, hraw, fun h => hz1 h, fun h => hz2 h,
    fun h => hz3 h, fun h => hz4 h⟩, fun h4n => ?_⟩
  obtain rfl : v4 = none := hz4 h4n
  unfold Message.decode
  rw [hraw]
  rfl

/-- Witness for C9 (amended): concrete frames with the parent-header
frame present and the other three nil. -/
theorem c9_absent_frames_zero_witness :
    (∃ raw : RawMessage Unit,
      rawDecode testCodec
        [some delimiterToken, none, none, some [1], none, none, none] none =
        .ok raw ∧
      ((none : Option Bytes) = none → raw.header = zeroHeader) ∧
      ((some [1] : Option Bytes) = none → raw.parentHeader = zeroHeader) ∧
      ((none : Option Bytes) = none → raw.metadata = testCodec.zeroM) ∧
      ((none : Option Bytes) = none → raw.content = none)) ∧
    ((none : Option Bytes) = none →
      Message.decode testCodec
        [some delimiterToken, none, none, some [1], none, none, none] none =
        .error .unmarshalErr) :=
  c9_absent_frames_zero testCodec none none (some [1]) none none none rfl
    (fun bs h => nomatch h)
    (fun bs h => by
      injection h with he
      subst he
      exact ⟨hdrA, rfl⟩)
    (fun bs h => nomatch h)
    (fun bs h => nomatch h)

end Jup
